import Mathlib

/-
Shallow embedding of the game-api world model (package `game`, files
`game/game.go`, `game/location.go` (GenerateGraph), `game/events.go`,
`game/player.go`) together with the subscription registry / broadcast
engine that `server/handlers.go` drives.

Conventions:
* Go maps keyed by identifier strings are association lists whose entries
  carry their key in their `id` field (which is how the code populates
  them: `g.Players[player.ID] = player`).
* Mutation of a struct behind a pointer is explicit state passing: each
  mutator returns the updated `Game` together with the events it handed
  to `BroadcastEvent`, in program order, and a `GoOutcome` describing the
  returned error (`err`), normal return (`ok`) or a Go runtime panic.
* Go `chan Event` subscriber queues are `Client` records holding a FIFO
  buffer with capacity; a buffered-channel send inside
  `select { case ch <- e: default: }` succeeds exactly when the buffer
  has room, which is what `deliverClient` implements.
* The lock behaviour of the mutators (which claim C1 is about) is
  embedded separately as the sequence of lock operations the calling
  goroutine performs, in program order (`movePlayerLockTrace` etc.).
-/

/-- EventType from game/events.go. -/
inductive EventType where
  | playerJoined
  | playerLeft
  | playerMoved
  | playerAttack
  | npcAction
  | connected
  deriving Repr, DecidableEq, Inhabited

/-- Event from game/events.go: Type, PlayerID, Location, TargetID, Message,
Timestamp, plus the Global visibility flag used by game/game.go. -/
structure Event where
  type : EventType
  playerID : String := ""
  location : String := ""
  targetID : String := ""
  message : String := ""
  timestamp : Nat := 0
  global : Bool := false
  deriving Repr, DecidableEq, Inhabited

/-- Player from game/player.go (the combat attributes Strength/Dexterity are
not read by any of the operations under study and are omitted). -/
structure Player where
  id : String
  name : String
  currentLocation : String
  health : Int
  deriving Repr, DecidableEq, Inhabited

/-- Location from game/location.go. -/
structure Location where
  id : String
  name : String
  description : String
  connections : List String
  deriving Repr, DecidableEq, Inhabited

/-- The state-store part of Game from game/game.go: the Locations and
Players maps guarded by g.Mu.  The subscription registry (clientPlayers,
guarded by g.ClientsMu) is carried separately as a `List Client`. -/
structure Game where
  id : String
  locations : List Location
  players : List Player
  deriving Repr, DecidableEq, Inhabited

/-- How a Go method call ends: normal return, an error return carrying the
fmt.Errorf message, or a runtime panic. -/
inductive GoOutcome where
  | ok
  | err (msg : String)
  | panic
  deriving Repr, DecidableEq, Inhabited

/-- Result of a mutator: the Game after the call, the events it handed to
BroadcastEvent in program order, and how the call returned. -/
structure MutationResult where
  game : Game
  events : List Event
  outcome : GoOutcome
  deriving Repr, DecidableEq, Inhabited

/-- g.Players[id] (nil ↦ none). -/
def findPlayer (g : Game) (playerID : String) : Option Player :=
  g.players.find? (fun p => p.id == playerID)

/-- g.Locations[id] (nil ↦ none). -/
def findLocation (g : Game) (locationID : String) : Option Location :=
  g.locations.find? (fun l => l.id == locationID)

/-- In-place mutation of the player struct stored under p.id: every map
entry whose key (= stored id) matches is replaced by the new struct. -/
def setPlayer (g : Game) (p : Player) : Game :=
  { g with players := g.players.map (fun q => if q.id == p.id then p else q) }

/-- g.Players[p.ID] = p : overwrite the entry if the key exists, insert
otherwise. -/
def upsertPlayer (ps : List Player) (p : Player) : List Player :=
  if ps.any (fun q => q.id == p.id) then
    ps.map (fun q => if q.id == p.id then p else q)
  else ps ++ [p]

/-- AddPlayer from game/game.go: register the player and broadcast a global
player_joined event. -/
def addPlayer (g : Game) (player : Player) : Game × List Event :=
  ({ g with players := upsertPlayer g.players player },
   [{ type := EventType.playerJoined
      playerID := player.id
      message := player.name ++ " joined the game"
      global := true }])

/-- MovePlayer from game/game.go.  Program order: look up the player, look
up the target location, read the player's current location (a nil current
location would make `currentLoc.Connections` a nil-pointer panic), scan its
Connections for the target, reject unless connected or a no-op move, then
update the player and broadcast departure (scoped to the old location) and
arrival (scoped to the new location). -/
def movePlayer (g : Game) (playerID locationID : String) : MutationResult :=
  match findPlayer g playerID with
  | none => ⟨g, [], GoOutcome.err "player not found"⟩
  | some player =>
    match findLocation g locationID with
    | none => ⟨g, [], GoOutcome.err "location not found"⟩
    | some _ =>
      match findLocation g player.currentLocation with
      | none => ⟨g, [], GoOutcome.panic⟩
      | some currentLoc =>
        let connected := currentLoc.connections.contains locationID
        if !connected && player.currentLocation != locationID then
          ⟨g, [], GoOutcome.err "location not connected"⟩
        else
          let oldLocation := player.currentLocation
          let player' := { player with currentLocation := locationID }
          ⟨setPlayer g player',
           [{ type := EventType.playerMoved
              playerID := playerID
              location := oldLocation
              message := player.name ++ " left the area" },
            { type := EventType.playerMoved
              playerID := playerID
              location := locationID
              message := player.name ++ " arrived" }],
           GoOutcome.ok⟩

/-- AttackPlayer from game/game.go.  Fixed damage 10; the attack event is
scoped to the shared location; if the target's health drops to 0 or below
it is clamped to 0 and a player_left ("has been defeated!") event is also
broadcast.  When attackerID = targetID the two map lookups alias the same
struct, which the explicit state passing reproduces. -/
def attackPlayer (g : Game) (attackerID targetID : String) : MutationResult :=
  match findPlayer g attackerID, findPlayer g targetID with
  | some attacker, some target =>
    if attacker.currentLocation != target.currentLocation then
      ⟨g, [], GoOutcome.err "players not in same location"⟩
    else
      let damage : Int := 10
      let target1 := { target with health := target.health - damage }
      let g1 := setPlayer g target1
      let attackEvent : Event :=
        { type := EventType.playerAttack
          playerID := attackerID
          targetID := targetID
          location := attacker.currentLocation
          message := attacker.name ++ " attacked " ++ target.name ++ " for "
                       ++ toString damage ++ " damage" }
      if target1.health ≤ 0 then
        let target2 := { target1 with health := 0 }
        ⟨setPlayer g1 target2,
         [attackEvent,
          { type := EventType.playerLeft
            playerID := targetID
            location := attacker.currentLocation
            message := target.name ++ " has been defeated!" }],
         GoOutcome.ok⟩
      else
        ⟨g1, [attackEvent], GoOutcome.ok⟩
  | _, _ => ⟨g, [], GoOutcome.err "player not found"⟩

/-- One subscriber of the registry: the channel object (buffer, capacity,
closed flag) together with its registration state.  `registered` is
membership in g.clientPlayers; `closed` is the Go channel's closed bit,
which outlives removal from the map. -/
structure Client where
  handle : Nat
  playerID : String
  buf : List Event
  cap : Nat
  registered : Bool
  closed : Bool
  deriving Repr, DecidableEq, Inhabited

/-- shouldPlayerSeeEvent from game/game.go: global events are visible to
everyone; otherwise look up the player (nil ↦ not visible) and compare the
event's location with the player's current location. -/
def shouldPlayerSeeEvent (g : Game) (playerID : String) (event : Event) : Bool :=
  if event.global then true
  else
    match findPlayer g playerID with
    | none => false
    | some player => event.location == player.currentLocation

/-- One iteration of the BroadcastEvent delivery loop for one registry
entry: if the subscriber should see the event, a non-blocking channel send;
on a full buffer the channel is closed and the entry deleted. -/
def deliverClient (g : Game) (event : Event) (c : Client) : Client :=
  if c.registered && shouldPlayerSeeEvent g c.playerID event then
    if c.buf.length < c.cap then { c with buf := c.buf ++ [event] }
    else { c with closed := true, registered := false }
  else c

/-- BroadcastEvent from game/game.go: stamp the event with the current
time, then run the delivery loop over every registered entry (each map
entry is visited once; evicting an entry does not affect the others). -/
def broadcastEvent (g : Game) (event : Event) (now : Nat) (clients : List Client) :
    List Client :=
  clients.map (deliverClient g { event with timestamp := now })

/-- AddClient from game/game.go, with the channel creation
(`make(chan Event, capacity)`) of its caller handleSSE folded in. -/
def addClient (clients : List Client) (handle : Nat) (playerID : String) (capacity : Nat) :
    List Client :=
  clients ++ [{ handle := handle, playerID := playerID, buf := [], cap := capacity,
                registered := true, closed := false }]

/-- RemoveClient from game/game.go: delete(g.clientPlayers, ch) — a no-op
when the entry is already gone — followed by close(ch), which panics in Go
when the channel is already closed. -/
def removeClient (clients : List Client) (handle : Nat) : Option (List Client) :=
  let afterDelete := clients.map (fun c =>
    if c.handle == handle then { c with registered := false } else c)
  if afterDelete.any (fun c => c.handle == handle && c.closed) then
    none
  else
    some (afterDelete.map (fun c =>
      if c.handle == handle then { c with closed := true } else c))

/-- The synchronization operations a goroutine performs, in program order:
the two sides of the state RWMutex g.Mu, the registry mutex g.ClientsMu,
and a channel delivery attempt. -/
inductive LockOp where
  | muLock
  | muUnlock
  | muRLock
  | muRUnlock
  | clientsMuLock
  | clientsMuUnlock
  | chanSend
  deriving Repr, DecidableEq, Inhabited

/-- Lock operations performed by shouldPlayerSeeEvent: none for a global
event, otherwise g.Mu.RLock() / g.Mu.RUnlock() around the player read. -/
def shouldSeeLockTrace (event : Event) : List LockOp :=
  if event.global then [] else [LockOp.muRLock, LockOp.muRUnlock]

/-- Lock operations performed by BroadcastEvent: take g.ClientsMu, then for
every registered entry run shouldPlayerSeeEvent (with its read-lock) and,
when visible, the channel send; finally release g.ClientsMu. -/
def broadcastLockTrace (g : Game) (event : Event) (clients : List Client) : List LockOp :=
  [LockOp.clientsMuLock]
    ++ (clients.filter (fun c => c.registered)).flatMap (fun c =>
         shouldSeeLockTrace event
           ++ (if shouldPlayerSeeEvent g c.playerID event then [LockOp.chanSend] else []))
    ++ [LockOp.clientsMuUnlock]

/-- Lock operations performed by a MovePlayer call: g.Mu.Lock(), then — on
the paths the source takes — each produced event is handed to
BroadcastEvent while the deferred g.Mu.Unlock() has not yet run, and the
state seen by the broadcast is the already-mutated one. -/
def movePlayerLockTrace (g : Game) (clients : List Client) (playerID locationID : String) :
    List LockOp :=
  let r := movePlayer g playerID locationID
  [LockOp.muLock]
    ++ r.events.flatMap (fun e => broadcastLockTrace r.game e clients)
    ++ [LockOp.muUnlock]

/-- Lock operations performed by an AddPlayer call (same deferred-unlock
shape as MovePlayer; the produced event is global). -/
def addPlayerLockTrace (g : Game) (clients : List Client) (player : Player) : List LockOp :=
  let r := addPlayer g player
  [LockOp.muLock]
    ++ r.2.flatMap (fun e => broadcastLockTrace r.1 e clients)
    ++ [LockOp.muUnlock]

/-- Lock operations performed by an AttackPlayer call (same deferred-unlock
shape; the produced events are location-scoped). -/
def attackPlayerLockTrace (g : Game) (clients : List Client) (attackerID targetID : String) :
    List LockOp :=
  let r := attackPlayer g attackerID targetID
  [LockOp.muLock]
    ++ r.events.flatMap (fun e => broadcastLockTrace r.game e clients)
    ++ [LockOp.muUnlock]

/-- Scans a trace tracking whether the goroutine holds the write side of
g.Mu; true when it reaches a g.Mu.RLock() while holding the write side —
sync.RWMutex is not reentrant, so that acquisition blocks forever. -/
def deadlocksOnOwnWriteLock (muWriteHeld : Bool) : List LockOp → Bool
  | [] => false
  | op :: rest =>
    match op with
    | LockOp.muLock => deadlocksOnOwnWriteLock true rest
    | LockOp.muUnlock => deadlocksOnOwnWriteLock false rest
    | LockOp.muRLock => muWriteHeld || deadlocksOnOwnWriteLock muWriteHeld rest
    | _ => deadlocksOnOwnWriteLock muWriteHeld rest

/-- Scans a trace tracking whether the goroutine holds the write side of
g.Mu; true when the broadcast engine (g.ClientsMu acquisition) is entered
while the state lock is still held — the ordering the spec forbids. -/
def broadcastsWhileStateLocked (muWriteHeld : Bool) : List LockOp → Bool
  | [] => false
  | op :: rest =>
    match op with
    | LockOp.muLock => broadcastsWhileStateLocked true rest
    | LockOp.muUnlock => broadcastsWhileStateLocked false rest
    | LockOp.clientsMuLock => muWriteHeld || broadcastsWhileStateLocked muWriteHeld rest
    | _ => broadcastsWhileStateLocked muWriteHeld rest

/-- The math/rand source: an arbitrary stream of draws and a cursor.
Intn n returns the next draw reduced mod n, so every sequence of in-range
values is realized by some stream. -/
structure Rng where
  seq : Nat → Nat
  idx : Nat

/-- rng.Intn(n): a value in [0, n) and the advanced source. -/
def Rng.intn (r : Rng) (n : Nat) : Nat × Rng :=
  (r.seq r.idx % n, ⟨r.seq, r.idx + 1⟩)

/-- The fixed name pool of GenerateGraph (game/location.go). -/
def locationNames : List String :=
  ["Dark Forest", "Ancient Castle", "Misty Mountains", "Crystal Cave",
   "Desert Ruins", "Frozen Lake", "Abandoned Mine", "Haunted Graveyard",
   "Dragon's Lair", "Enchanted Garden", "Pirate Cove", "Volcano Peak"]

/-- The creation loop of GenerateGraph: location i gets the i-th generated
identifier, a name drawn cyclically from the pool (with a numeric suffix
once the pool is exhausted) and an empty connection list.  The identifiers
produced by utils.GenerateID are the `ids` input (the claims assume them
unique, as the spec's identifier-generator contract requires). -/
def mkLocations (ids : List String) : List Location :=
  (List.range ids.length).map (fun i =>
    let base := locationNames.getD (i % locationNames.length) ""
    let name := if i ≥ locationNames.length
                then base ++ " " ++ toString (i / locationNames.length)
                else base
    { id := ids.getD i ""
      name := name
      description := "A mysterious " ++ name
      connections := [] })

/-- Adds the bidirectional edge i–t with the `contains` dedup of
GenerateGraph, for two distinct slice indices. -/
def connectPair (locs : List Location) (i t : Nat) : List Location :=
  let a := locs.getD i default
  let b := locs.getD t default
  let a' := if a.connections.contains b.id then a
            else { a with connections := a.connections ++ [b.id] }
  let b' := if b.connections.contains a.id then b
            else { b with connections := b.connections ++ [a.id] }
  (locs.set i a').set t b'

/-- The ring fallback of GenerateGraph: both appends are unguarded in the
source. -/
def connectFallback (locs : List Location) (i t : Nat) : List Location :=
  let a := locs.getD i default
  let b := locs.getD t default
  (locs.set i { a with connections := a.connections ++ [b.id] }).set t
    { b with connections := b.connections ++ [a.id] }

/-- The inner `for j := 0; j < numConnections; j++` loop: draw a target
index and connect unless it equals i. -/
def innerConnect (i : Nat) : Nat → List Location → Rng → List Location × Rng
  | 0, locs, r => (locs, r)
  | j + 1, locs, r =>
    let d := r.intn locs.length
    innerConnect i j (if d.1 = i then locs else connectPair locs i d.1) d.2

/-- One iteration of the outer connection loop of GenerateGraph for slice
index i: numConnections := rng.Intn(3)+1 random edges, then the ring
fallback when the location is still unconnected and the world has more
than one location. -/
def connectLoc (locs : List Location) (r : Rng) (i : Nat) : List Location × Rng :=
  let d := r.intn 3
  let st := innerConnect i (d.1 + 1) locs d.2
  if (st.1.getD i default).connections.isEmpty && decide (1 < st.1.length) then
    (connectFallback st.1 i ((i + 1) % st.1.length), st.2)
  else st

/-- The outer connection loop over the slice indices. -/
def connectAll (locs : List Location) (r : Rng) (idxs : List Nat) : List Location × Rng :=
  idxs.foldl (fun st i => connectLoc st.1 st.2 i) (locs, r)

/-- GenerateGraph from game/location.go, with the identifier stream and
randomness source explicit; the result is the location slice (the Go map
holds the same Location values keyed by their ids). -/
def generateGraph (ids : List String) (r : Rng) : List Location :=
  (connectAll (mkLocations ids) r (List.range ids.length)).1

/-- The connection list of the location at slice index i (empty for an
out-of-range index). -/
def conns (locs : List Location) (i : Nat) : List String :=
  (locs.getD i default).connections

/-- The identifier of the location at slice index i. -/
def idAt (locs : List Location) (i : Nat) : String :=
  (locs.getD i default).id

/-- The invariant the connection phase of GenerateGraph maintains: the
slice keeps its length and identifiers, no location lists itself, and the
connection relation is symmetric. -/
def GraphInv (ids : List String) (locs : List Location) : Prop :=
  locs.length = ids.length ∧
  (∀ i, i < locs.length → idAt locs i = ids.getD i "") ∧
  (∀ i, idAt locs i ∉ conns locs i) ∧
  (∀ i j, i < locs.length → j < locs.length →
    (idAt locs j ∈ conns locs i ↔ idAt locs i ∈ conns locs j))

/-- One connection-phase state extends another: same length, same
identifiers, and every connection list has only grown. -/
def ConnsExtend (locs locs' : List Location) : Prop :=
  locs'.length = locs.length ∧
  (∀ j, idAt locs' j = idAt locs j) ∧
  (∀ j, ∃ s, conns locs' j = conns locs j ++ s)

/-- n successive AttackPlayer calls by the same attacker on the same
target. -/
def iterAttack (g : Game) (attackerID targetID : String) : Nat → Game
  | 0 => g
  | n + 1 => (attackPlayer (iterAttack g attackerID targetID n) attackerID targetID).game

/-- Number of defeat ("player_left") events a mutation broadcast. -/
def defeatEvents (r : MutationResult) : Nat :=
  r.events.countP (fun e => e.type == EventType.playerLeft)

/-- Total number of defeat events broadcast during the first n attacks. -/
def defeatCount (g : Game) (attackerID targetID : String) : Nat → Nat
  | 0 => 0
  | n + 1 => defeatCount g attackerID targetID n
      + defeatEvents (attackPlayer (iterAttack g attackerID targetID n) attackerID targetID)

/-- A Game is well formed when every player's current location references
an existing Location (the data-model invariant the spec states for
Player.currentLocation); MovePlayer dereferences that location without a
nil check. -/
def WellFormed (g : Game) : Prop :=
  ∀ p ∈ g.players, (findLocation g p.currentLocation).isSome = true

/-- Every player's health lies in [0, 100] (100 is the fixed starting
value handleSSE's sibling handlePlayers assigns on join). -/
def HealthInv (g : Game) : Prop :=
  ∀ p ∈ g.players, 0 ≤ p.health ∧ p.health ≤ 100

/-- A two-room world: locA ↔ locB, Alice in locA. -/
def worldAB : Game :=
  { id := "g1"
    locations := [{ id := "locA", name := "A", description := "", connections := ["locB"] },
                  { id := "locB", name := "B", description := "", connections := ["locA"] }]
    players := [{ id := "p1", name := "Alice", currentLocation := "locA", health := 100 }] }

/-- One registered SSE subscriber for Alice, queue capacity 10 as in
handleSSE. -/
def oneSubscriber : List Client :=
  [{ handle := 0, playerID := "p1", buf := [], cap := 10, registered := true, closed := false }]

/-- A one-room world with two co-located players at full health. -/
def duelWorld : Game :=
  { id := "g2"
    locations := [{ id := "arena", name := "Arena", description := "", connections := [] }]
    players := [{ id := "att", name := "Attacker", currentLocation := "arena", health := 100 },
                { id := "tgt", name := "Target", currentLocation := "arena", health := 100 }] }

/-- A subscriber whose capacity-10 queue already holds 10 undrained
events. -/
def fullSubscriber : Client :=
  { handle := 0, playerID := "p1", buf := List.replicate 10 { type := EventType.npcAction },
    cap := 10, registered := true, closed := false }

/-- A global player_joined event, as AddPlayer broadcasts. -/
def globalJoinEvent : Event :=
  { type := EventType.playerJoined, playerID := "p9", message := "Bob joined the game",
    global := true }

/-- Looking a player up after an in-place update of an entry with the same
key returns the updated struct (the map holds one struct per key). -/
theorem find?_map_update (ps : List Player) (p q : Player) (playerID : String)
    (h : ps.find? (fun x => x.id == playerID) = some p) (hq : q.id = p.id) :
    (ps.map (fun x => if x.id == q.id then q else x)).find? (fun x => x.id == playerID) =
      some q := by
  induction ps with
  | nil => simp at h
  | cons a as ih =>
    rw [List.map_cons]
    by_cases ha : (a.id == playerID) = true
    · have hap : a = p := by
        rw [@List.find?_cons_of_pos _ (fun x => x.id == playerID) a as ha] at h
        exact Option.some.inj h
      have ha' : a.id = playerID := by simpa using ha
      have hq' : q.id = playerID := by rw [hq, ← hap, ha']
      rw [if_pos (show (a.id == q.id) = true by simp [hq, ← hap])]
      exact @List.find?_cons_of_pos _ (fun x => x.id == playerID) q _ (by simp [hq'])
    · have h' : List.find? (fun x => x.id == playerID) as = some p := by
        rwa [@List.find?_cons_of_neg _ (fun x => x.id == playerID) a as (by simpa using ha)] at h
      have hpid : p.id = playerID := by simpa using List.find?_some h'
      have haq : ¬ (a.id == q.id) = true := by
        simp only [hq, hpid]
        simpa using ha
      rw [if_neg haq,
          @List.find?_cons_of_neg _ (fun x => x.id == playerID) a _ (by simpa using ha)]
      exact ih h'

/-- findPlayer after setPlayer with the same key. -/
theorem findPlayer_setPlayer (g : Game) (p q : Player) (playerID : String)
    (h : findPlayer g playerID = some p) (hq : q.id = p.id) :
    findPlayer (setPlayer g q) playerID = some q :=
  find?_map_update g.players p q playerID h hq

/-- Membership after an in-place entry update. -/
theorem mem_update_list (ps : List Player) (p x : Player)
    (h : x ∈ ps.map (fun a => if a.id == p.id then p else a)) : x = p ∨ x ∈ ps := by
  rw [List.mem_map] at h
  obtain ⟨a, haps, hax⟩ := h
  by_cases hid : (a.id == p.id) = true
  · rw [if_pos hid] at hax
    exact Or.inl hax.symm
  · rw [if_neg hid] at hax
    exact Or.inr (hax ▸ haps)

/-- Membership in setPlayer's player map. -/
theorem mem_setPlayer (g : Game) (p x : Player) (h : x ∈ (setPlayer g p).players) :
    x = p ∨ x ∈ g.players :=
  mem_update_list g.players p x h

/-- Two successive in-place updates of the same key collapse into the
second one. -/
theorem setPlayer_setPlayer (g : Game) (q1 q2 : Player) (h : q1.id = q2.id) :
    setPlayer (setPlayer g q1) q2 = setPlayer g q2 := by
  unfold setPlayer
  simp only [List.map_map]
  congr 1
  apply List.map_congr_left
  intro a _
  simp only [Function.comp_apply]
  by_cases ha : (a.id == q1.id) = true
  · have ha2 : (a.id == q2.id) = true := by
      have := beq_iff_eq.mp ha
      simp [this, ← h]
    rw [if_pos ha, if_pos (show (q1.id == q2.id) = true by simp [h]), if_pos ha2]
  · have ha2 : ¬ (a.id == q2.id) = true := by
      rw [← h]
      exact ha
    rw [if_neg ha]

/-- A found player is a member of the map. -/
theorem mem_of_findPlayer (g : Game) (p : Player) (playerID : String)
    (h : findPlayer g playerID = some p) : p ∈ g.players :=
  List.mem_of_find?_eq_some h

/-- Claim C2: for every player identifier and location identifier,
MovePlayer succeeds exactly when the player is known, the location is
known, and the target is in the current location's connection set or
equals the current location; every failing call returns its error with
the world unchanged and broadcasts nothing.  (Well-formedness — every
player's current location exists — is the data-model invariant; without
it the Go code would dereference a nil *Location.) -/
theorem movePlayer_ok_iff (g : Game) (hwf : WellFormed g) (playerID locationID : String) :
    ((movePlayer g playerID locationID).outcome = GoOutcome.ok ↔
      ∃ p currentLoc, findPlayer g playerID = some p ∧
        (findLocation g locationID).isSome = true ∧
        findLocation g p.currentLocation = some currentLoc ∧
        (locationID ∈ currentLoc.connections ∨ p.currentLocation = locationID)) ∧
    ((movePlayer g playerID locationID).outcome ≠ GoOutcome.ok →
      (movePlayer g playerID locationID).game = g ∧
      (movePlayer g playerID locationID).events = []) := by
  cases hp : findPlayer g playerID with
  | none =>
    refine ⟨?_, fun _ => ?_⟩
    · simp [movePlayer, hp]
    · simp [movePlayer, hp]
  | some player =>
    cases hl : findLocation g locationID with
    | none =>
      refine ⟨?_, fun _ => ?_⟩
      · simp [movePlayer, hp, hl]
      · simp [movePlayer, hp, hl]
    | some tloc =>
      have hmem := mem_of_findPlayer g player playerID hp
      obtain ⟨currentLoc, hcl⟩ := Option.isSome_iff_exists.mp (hwf player hmem)
      by_cases hmemb : currentLoc.connections.contains locationID = true
      · have hcond : (!currentLoc.connections.contains locationID
            && player.currentLocation != locationID) = false := by
          rw [hmemb]
          rfl
        have hred : movePlayer g playerID locationID =
            ⟨setPlayer g { player with currentLocation := locationID },
             [{ type := EventType.playerMoved, playerID := playerID,
                location := player.currentLocation,
                message := player.name ++ " left the area" },
              { type := EventType.playerMoved, playerID := playerID,
                location := locationID, message := player.name ++ " arrived" }],
             GoOutcome.ok⟩ := by
          simp only [movePlayer, hp, hl, hcl, hcond, Bool.false_eq_true, if_false]
        refine ⟨?_, fun hne => ?_⟩
        · rw [hred]
          constructor
          · intro _
            refine ⟨player, currentLoc, rfl, by simp, hcl, Or.inl ?_⟩
            exact List.elem_iff.mp hmemb
          · intro _
            rfl
        · exact absurd (by rw [hred]) hne
      · by_cases heq : player.currentLocation = locationID
        · have hcond : (!currentLoc.connections.contains locationID
              && player.currentLocation != locationID) = false := by simp [heq]
          have hred : movePlayer g playerID locationID =
              ⟨setPlayer g { player with currentLocation := locationID },
               [{ type := EventType.playerMoved, playerID := playerID,
                  location := player.currentLocation,
                  message := player.name ++ " left the area" },
                { type := EventType.playerMoved, playerID := playerID,
                  location := locationID, message := player.name ++ " arrived" }],
               GoOutcome.ok⟩ := by
            simp only [movePlayer, hp, hl, hcl, hcond, Bool.false_eq_true, if_false]
          refine ⟨?_, fun hne => ?_⟩
          · rw [hred]
            constructor
            · intro _
              exact ⟨player, currentLoc, rfl, by simp, hcl, Or.inr heq⟩
            · intro _
              rfl
          · exact absurd (by rw [hred]) hne
        · have h1 : currentLoc.connections.contains locationID = false :=
            Bool.eq_false_iff.mpr hmemb
          have hcond : (!currentLoc.connections.contains locationID
              && player.currentLocation != locationID) = true := by
            rw [h1]
            simp [bne_iff_ne, heq]
          have hred : movePlayer g playerID locationID =
              ⟨g, [], GoOutcome.err "location not connected"⟩ := by
            simp only [movePlayer, hp, hl, hcl, hcond, if_true]
          refine ⟨?_, fun _ => ?_⟩
          · rw [hred]
            constructor
            · intro habs
              simp at habs
            · rintro ⟨p, cl, hp2, _, hcl2, hdisj⟩
              injection hp2 with hp2
              subst hp2
              rw [hcl] at hcl2
              injection hcl2 with hcl2
              subst hcl2
              rcases hdisj with hmem2 | heq2
              · exact (hmemb (List.elem_iff.mpr hmem2)).elim
              · exact (heq heq2).elim
          · rw [hred]
            exact ⟨rfl, rfl⟩

/-- Claim C5: every successful MovePlayer broadcasts exactly two events,
first the departure scoped to the old location, then the arrival scoped to
the new location (both location-scoped, not global); a failed move
broadcasts nothing. -/
theorem movePlayer_two_events (g : Game) (playerID locationID : String) :
    (∀ p, findPlayer g playerID = some p →
      (movePlayer g playerID locationID).outcome = GoOutcome.ok →
      (movePlayer g playerID locationID).events =
        [{ type := EventType.playerMoved, playerID := playerID,
           location := p.currentLocation, message := p.name ++ " left the area" },
         { type := EventType.playerMoved, playerID := playerID,
           location := locationID, message := p.name ++ " arrived" }]) ∧
    ((movePlayer g playerID locationID).outcome ≠ GoOutcome.ok →
      (movePlayer g playerID locationID).events = []) := by
  cases hp : findPlayer g playerID with
  | none => refine ⟨by simp, fun _ => by simp [movePlayer, hp]⟩
  | some player =>
    cases hl : findLocation g locationID with
    | none =>
      have hred : movePlayer g playerID locationID =
          ⟨g, [], GoOutcome.err "location not found"⟩ := by
        simp only [movePlayer, hp, hl]
      rw [hred]
      exact ⟨fun p _ hout => absurd hout (by simp), fun _ => rfl⟩
    | some tloc =>
      cases hcl : findLocation g player.currentLocation with
      | none =>
        have hred : movePlayer g playerID locationID = ⟨g, [], GoOutcome.panic⟩ := by
          simp only [movePlayer, hp, hl, hcl]
        rw [hred]
        exact ⟨fun p _ hout => absurd hout (by simp), fun _ => rfl⟩
      | some currentLoc =>
        by_cases hcond : (!currentLoc.connections.contains locationID
            && player.currentLocation != locationID) = true
        · have hred : movePlayer g playerID locationID =
              ⟨g, [], GoOutcome.err "location not connected"⟩ := by
            simp only [movePlayer, hp, hl, hcl, hcond, if_true]
          rw [hred]
          exact ⟨fun p _ hout => absurd hout (by simp), fun _ => rfl⟩
        · have hcond' := Bool.eq_false_iff.mpr hcond
          have hred : movePlayer g playerID locationID =
              ⟨setPlayer g { player with currentLocation := locationID },
               [{ type := EventType.playerMoved, playerID := playerID,
                  location := player.currentLocation,
                  message := player.name ++ " left the area" },
                { type := EventType.playerMoved, playerID := playerID,
                  location := locationID, message := player.name ++ " arrived" }],
               GoOutcome.ok⟩ := by
            simp only [movePlayer, hp, hl, hcl, hcond', Bool.false_eq_true, if_false]
          rw [hred]
          refine ⟨fun p hp2 _ => ?_, fun hne => (hne rfl).elim⟩
          injection hp2 with hp2
          subst hp2
          rfl

/-- Claim C10: a self-attack on any known player succeeds (the co-location
check compares the player's location with itself), reduces the player's
own health by the fixed damage 10 floored at zero, and broadcasts the same
attack event — and, when health reaches zero, the same defeat event — as
an attack on another player; no special-casing. -/
theorem attackPlayer_self (g : Game) (playerID : String) (p : Player)
    (h : findPlayer g playerID = some p) :
    (attackPlayer g playerID playerID).outcome = GoOutcome.ok ∧
    findPlayer (attackPlayer g playerID playerID).game playerID =
      some { p with health := if p.health - 10 ≤ 0 then 0 else p.health - 10 } ∧
    (attackPlayer g playerID playerID).events =
      { type := EventType.playerAttack, playerID := playerID, targetID := playerID,
        location := p.currentLocation,
        message := p.name ++ " attacked " ++ p.name ++ " for " ++ toString (10 : Int)
                     ++ " damage" }
      :: (if p.health - 10 ≤ 0 then
            [{ type := EventType.playerLeft, playerID := playerID,
               location := p.currentLocation,
               message := p.name ++ " has been defeated!" }]
          else []) := by
  have hself : (p.currentLocation != p.currentLocation) = false := by simp
  by_cases hdef : p.health - 10 ≤ 0
  · have hred : attackPlayer g playerID playerID =
        ⟨setPlayer (setPlayer g { p with health := p.health - 10 }) { p with health := 0 },
         [{ type := EventType.playerAttack, playerID := playerID, targetID := playerID,
            location := p.currentLocation,
            message := p.name ++ " attacked " ++ p.name ++ " for " ++ toString (10 : Int)
                         ++ " damage" },
          { type := EventType.playerLeft, playerID := playerID,
            location := p.currentLocation,
            message := p.name ++ " has been defeated!" }],
         GoOutcome.ok⟩ := by
      simp only [attackPlayer, h, hself, Bool.false_eq_true, if_false]
      rw [if_pos hdef]
    refine ⟨by rw [hred], ?_, ?_⟩
    · rw [hred, if_pos hdef]
      show findPlayer (setPlayer (setPlayer g { p with health := p.health - 10 })
        { p with health := 0 }) playerID = some { p with health := 0 }
      rw [setPlayer_setPlayer g { p with health := p.health - 10 } { p with health := 0 } rfl]
      exact findPlayer_setPlayer g p { p with health := 0 } playerID h rfl
    · rw [hred, if_pos hdef]
  · have hred : attackPlayer g playerID playerID =
        ⟨setPlayer g { p with health := p.health - 10 },
         [{ type := EventType.playerAttack, playerID := playerID, targetID := playerID,
            location := p.currentLocation,
            message := p.name ++ " attacked " ++ p.name ++ " for " ++ toString (10 : Int)
                         ++ " damage" }],
         GoOutcome.ok⟩ := by
      simp only [attackPlayer, h, hself, Bool.false_eq_true, if_false]
      rw [if_neg hdef]
    refine ⟨by rw [hred], ?_, ?_⟩
    · rw [hred, if_neg hdef]
      exact findPlayer_setPlayer g p { p with health := p.health - 10 } playerID h rfl
    · rw [hred, if_neg hdef]

/-- MovePlayer either leaves the world untouched (error and panic paths)
or relocates the found player. -/
theorem movePlayer_game_cases (g : Game) (playerID locationID : String) :
    ((movePlayer g playerID locationID).game = g ∧
     (movePlayer g playerID locationID).outcome ≠ GoOutcome.ok) ∨
    ∃ p, findPlayer g playerID = some p ∧
      (movePlayer g playerID locationID).game =
        setPlayer g { p with currentLocation := locationID } := by
  cases hp : findPlayer g playerID with
  | none => left; simp [movePlayer, hp]
  | some player =>
    cases hl : findLocation g locationID with
    | none => left; simp [movePlayer, hp, hl]
    | some tloc =>
      cases hcl : findLocation g player.currentLocation with
      | none => left; simp [movePlayer, hp, hl, hcl]
      | some currentLoc =>
        by_cases hcond : (!currentLoc.connections.contains locationID
            && player.currentLocation != locationID) = true
        · left
          constructor
          · simp only [movePlayer, hp, hl, hcl, hcond, if_true]
          · simp only [movePlayer, hp, hl, hcl, hcond, if_true]
            simp
        · right
          refine ⟨player, rfl, ?_⟩
          have hcond' := Bool.eq_false_iff.mpr hcond
          simp only [movePlayer, hp, hl, hcl, hcond', Bool.false_eq_true, if_false]

/-- AttackPlayer either leaves the world untouched (error paths) or reduces
the found target's health by 10, clamping at zero exactly when the result
would be ≤ 0. -/
theorem attackPlayer_game_cases (g : Game) (attackerID targetID : String) :
    ((attackPlayer g attackerID targetID).game = g ∧
     (attackPlayer g attackerID targetID).outcome ≠ GoOutcome.ok) ∨
    ∃ t, findPlayer g targetID = some t ∧
      ((¬ t.health - 10 ≤ 0 ∧ (attackPlayer g attackerID targetID).game =
          setPlayer g { t with health := t.health - 10 }) ∨
       (t.health - 10 ≤ 0 ∧ (attackPlayer g attackerID targetID).game =
          setPlayer g { t with health := 0 })) := by
  cases ha : findPlayer g attackerID with
  | none => left; simp [attackPlayer, ha]
  | some attacker =>
    cases ht : findPlayer g targetID with
    | none => left; simp [attackPlayer, ha, ht]
    | some target =>
      by_cases hco : (attacker.currentLocation != target.currentLocation) = true
      · left
        constructor
        · simp only [attackPlayer, ha, ht, hco, if_true]
        · simp [attackPlayer, ha, ht, hco]
      · have hco' := Bool.eq_false_iff.mpr hco
        by_cases hdef : target.health - 10 ≤ 0
        · right
          refine ⟨target, rfl, Or.inr ⟨hdef, ?_⟩⟩
          simp only [attackPlayer, ha, ht, hco', Bool.false_eq_true, if_false]
          rw [if_pos hdef]
          exact setPlayer_setPlayer g { target with health := target.health - 10 }
            { target with health := 0 } rfl
        · right
          refine ⟨target, rfl, Or.inl ⟨hdef, ?_⟩⟩
          simp only [attackPlayer, ha, ht, hco', Bool.false_eq_true, if_false]
          rw [if_neg hdef]

/-- Claim C3: every operation keeps every player's health inside [0, 100]
(AddPlayer provided the joining player is in range, as handlePlayers's
fixed starting value 100 is), and a successful AttackPlayer always leaves
the target's stored health at a value ≥ 0, whatever it was before. -/
theorem health_in_range (g : Game) (attackerID targetID playerID locationID : String)
    (q : Player) (hg : HealthInv g) (hq : 0 ≤ q.health ∧ q.health ≤ 100) :
    HealthInv (attackPlayer g attackerID targetID).game ∧
    HealthInv (movePlayer g playerID locationID).game ∧
    HealthInv (addPlayer g q).1 ∧
    ((attackPlayer g attackerID targetID).outcome = GoOutcome.ok →
      ∀ t, findPlayer (attackPlayer g attackerID targetID).game targetID = some t →
        0 ≤ t.health) := by
  refine ⟨?_, ?_, ?_, ?_⟩
  · rcases attackPlayer_game_cases g attackerID targetID with ⟨hsame, _⟩ | ⟨t, ht, hcase⟩
    · rw [hsame]; exact hg
    · have htmem := mem_of_findPlayer g t targetID ht
      have htb := hg t htmem
      rcases hcase with ⟨hdef, hgame⟩ | ⟨_, hgame⟩
      · rw [hgame]
        intro x hx
        rcases mem_setPlayer g _ x hx with rfl | hxg
        · show 0 ≤ t.health - 10 ∧ t.health - 10 ≤ 100
          omega
        · exact hg x hxg
      · rw [hgame]
        intro x hx
        rcases mem_setPlayer g _ x hx with rfl | hxg
        · show (0 : Int) ≤ 0 ∧ (0 : Int) ≤ 100
          omega
        · exact hg x hxg
  · rcases movePlayer_game_cases g playerID locationID with ⟨hsame, _⟩ | ⟨p, hp, hgame⟩
    · rw [hsame]; exact hg
    · rw [hgame]
      intro x hx
      rcases mem_setPlayer g _ x hx with rfl | hxg
      · exact hg p (mem_of_findPlayer g p playerID hp)
      · exact hg x hxg
  · intro x hx
    unfold addPlayer upsertPlayer at hx
    simp only at hx
    by_cases hexists : g.players.any (fun r => r.id == q.id) = true
    · rw [if_pos hexists] at hx
      rcases mem_update_list g.players q x hx with rfl | hxg
      · exact hq
      · exact hg x hxg
    · rw [if_neg hexists] at hx
      rcases List.mem_append.mp hx with hxg | hxq
      · exact hg x hxg
      · rw [List.mem_singleton.mp hxq]
        exact hq
  · intro hok t' hfind
    rcases attackPlayer_game_cases g attackerID targetID with ⟨_, hne⟩ | ⟨t, ht, hcase⟩
    · exact absurd hok hne
    · rcases hcase with ⟨hdef, hgame⟩ | ⟨_, hgame⟩
      · rw [hgame] at hfind
        rw [findPlayer_setPlayer g t { t with health := t.health - 10 } targetID ht rfl]
          at hfind
        injection hfind with hfind
        rw [← hfind]
        show 0 ≤ t.health - 10
        omega
      · rw [hgame] at hfind
        rw [findPlayer_setPlayer g t { t with health := 0 } targetID ht rfl] at hfind
        injection hfind with hfind
        rw [← hfind]

/-- getD through map, in range. -/
theorem getD_map_of_lt {α β : Type} [Inhabited α] [Inhabited β] (f : α → β) (l : List α)
    (i : Nat) (h : i < l.length) :
    (l.map f).getD i default = f (l.getD i default) := by
  rw [List.getD_eq_getElem _ _ (by simpa using h), List.getD_eq_getElem _ _ h,
      List.getElem_map]

/-- The i-th registry entry after a broadcast is the delivery-loop image of
the i-th entry before it. -/
theorem broadcastEvent_getD (g : Game) (event : Event) (now : Nat) (clients : List Client)
    (i : Nat) (h : i < clients.length) :
    (broadcastEvent g event now clients).getD i default =
      deliverClient g { event with timestamp := now } (clients.getD i default) :=
  getD_map_of_lt _ clients i h

/-- Delivery to a matching registered subscriber with a full buffer:
event dropped, channel closed, registration removed. -/
theorem deliverClient_full (g : Game) (e : Event) (c : Client) (hreg : c.registered = true)
    (hsee : shouldPlayerSeeEvent g c.playerID e = true) (hfull : c.cap ≤ c.buf.length) :
    deliverClient g e c = { c with closed := true, registered := false } := by
  unfold deliverClient
  rw [if_pos (by rw [hreg, hsee]; rfl), if_neg (not_lt.mpr hfull)]

/-- Delivery to a matching registered subscriber with room: the event is
queued. -/
theorem deliverClient_room (g : Game) (e : Event) (c : Client) (hreg : c.registered = true)
    (hsee : shouldPlayerSeeEvent g c.playerID e = true) (hroom : c.buf.length < c.cap) :
    deliverClient g e c = { c with buf := c.buf ++ [e] } := by
  unfold deliverClient
  rw [if_pos (by rw [hreg, hsee]; rfl), if_pos hroom]

/-- An unregistered entry is untouched by the delivery loop. -/
theorem deliverClient_unregistered (g : Game) (e : Event) (c : Client)
    (hreg : c.registered = false) : deliverClient g e c = c := by
  unfold deliverClient
  rw [if_neg (by rw [hreg]; simp)]

/-- A subscriber that should not see the event is untouched. -/
theorem deliverClient_not_seen (g : Game) (e : Event) (c : Client)
    (hsee : shouldPlayerSeeEvent g c.playerID e = false) : deliverClient g e c = c := by
  unfold deliverClient
  rw [if_neg (by rw [hsee]; simp)]

/-- Claim C7 (amended): a global event is delivered to every registered
subscriber queue that has spare capacity (a full queue is evicted instead,
claim C8); a location-scoped event never reaches a subscriber whose
player is absent or elsewhere; and any queue a broadcast changes belongs
to a subscriber that should see the event — global, or co-located with
it. -/
theorem broadcast_filtering (g : Game) (event : Event) (now : Nat) (clients : List Client)
    (i : Nat) (hi : i < clients.length) :
    ((clients.getD i default).registered = true → event.global = true →
      (clients.getD i default).buf.length < (clients.getD i default).cap →
      ((broadcastEvent g event now clients).getD i default).buf =
        (clients.getD i default).buf ++ [{ event with timestamp := now }]) ∧
    (∀ p, event.global = false →
      findPlayer g (clients.getD i default).playerID = some p →
      event.location ≠ p.currentLocation →
      (broadcastEvent g event now clients).getD i default = clients.getD i default) ∧
    (event.global = false → findPlayer g (clients.getD i default).playerID = none →
      (broadcastEvent g event now clients).getD i default = clients.getD i default) ∧
    (((broadcastEvent g event now clients).getD i default).buf ≠
        (clients.getD i default).buf →
      event.global = true ∨
      ∃ p, findPlayer g (clients.getD i default).playerID = some p ∧
        p.currentLocation = event.location) := by
  have hmap := broadcastEvent_getD g event now clients i hi
  refine ⟨?_, ?_, ?_, ?_⟩
  · intro hreg hglob hroom
    rw [hmap, deliverClient_room g _ _ hreg (by simp [shouldPlayerSeeEvent, hglob]) hroom]
  · intro p hglob hfind hne
    have hb : (event.location == p.currentLocation) = false := by
      simpa using hne
    rw [hmap, deliverClient_not_seen g _ _
      (by simp only [shouldPlayerSeeEvent, hglob, Bool.false_eq_true, if_false, hfind, hb])]
  · intro hglob hfind
    rw [hmap, deliverClient_not_seen g _ _
      (by simp only [shouldPlayerSeeEvent, hglob, Bool.false_eq_true, if_false, hfind])]
  · intro hbuf
    by_cases hglob : event.global = true
    · exact Or.inl hglob
    · right
      have hglob' : event.global = false := Bool.eq_false_iff.mpr hglob
      cases hfind : findPlayer g (clients.getD i default).playerID with
      | none =>
        exfalso
        apply hbuf
        rw [hmap, deliverClient_not_seen g _ _
          (by simp only [shouldPlayerSeeEvent, hglob', Bool.false_eq_true, if_false, hfind])]
      | some p =>
        by_cases hloc : p.currentLocation = event.location
        · exact ⟨p, rfl, hloc⟩
        · exfalso
          apply hbuf
          have hb : (event.location == p.currentLocation) = false := by
            simp
            exact fun hh => hloc hh.symm
          rw [hmap, deliverClient_not_seen g _ _
            (by simp only [shouldPlayerSeeEvent, hglob', Bool.false_eq_true, if_false, hfind,
                  hb])]

/-- Claim C8: delivery during a broadcast is per-queue and non-blocking:
a matching registered subscriber with a full queue has the event dropped
(buffer unchanged), its channel closed and its registration removed; a
matching registered subscriber with room receives the event; an already
unregistered entry is untouched (eviction is terminal); and the registry
keeps one entry per subscriber, so every other subscriber is still
processed. -/
theorem broadcast_backpressure (g : Game) (event : Event) (now : Nat)
    (clients : List Client) (i : Nat) (hi : i < clients.length) :
    ((clients.getD i default).registered = true →
      shouldPlayerSeeEvent g (clients.getD i default).playerID
        { event with timestamp := now } = true →
      (clients.getD i default).cap ≤ (clients.getD i default).buf.length →
      ((broadcastEvent g event now clients).getD i default).buf =
          (clients.getD i default).buf ∧
      ((broadcastEvent g event now clients).getD i default).closed = true ∧
      ((broadcastEvent g event now clients).getD i default).registered = false) ∧
    ((clients.getD i default).registered = true →
      shouldPlayerSeeEvent g (clients.getD i default).playerID
        { event with timestamp := now } = true →
      (clients.getD i default).buf.length < (clients.getD i default).cap →
      (broadcastEvent g event now clients).getD i default =
        { clients.getD i default with
            buf := (clients.getD i default).buf ++ [{ event with timestamp := now }] }) ∧
    ((clients.getD i default).registered = false →
      (broadcastEvent g event now clients).getD i default = clients.getD i default) ∧
    (broadcastEvent g event now clients).length = clients.length := by
  have hmap := broadcastEvent_getD g event now clients i hi
  refine ⟨?_, ?_, ?_, ?_⟩
  · intro hreg hsee hfull
    refine ⟨?_, ?_, ?_⟩ <;> rw [hmap, deliverClient_full g _ _ hreg hsee hfull]
  · intro hreg hsee hroom
    rw [hmap, deliverClient_room g _ _ hreg hsee hroom]
  · intro hreg
    rw [hmap, deliverClient_unregistered g _ _ hreg]
  · simp [broadcastEvent]

/-- Claim C1: contrary to the documented locking discipline, every mutator
of game/game.go hands its events to BroadcastEvent while still holding the
g.Mu write lock (the unlock is deferred), and for the location-scoped
events of MovePlayer and AttackPlayer the delivery loop's
shouldPlayerSeeEvent then re-acquires g.Mu.RLock on the same goroutine —
with any subscriber registered, the call self-deadlocks. -/
theorem mutators_broadcast_under_state_lock :
    broadcastsWhileStateLocked false
      (movePlayerLockTrace worldAB oneSubscriber "p1" "locB") = true ∧
    deadlocksOnOwnWriteLock false
      (movePlayerLockTrace worldAB oneSubscriber "p1" "locB") = true ∧
    (movePlayer worldAB "p1" "locB").outcome = GoOutcome.ok ∧
    broadcastsWhileStateLocked false (addPlayerLockTrace worldAB oneSubscriber
      { id := "p2", name := "Bob", currentLocation := "locA", health := 100 }) = true ∧
    broadcastsWhileStateLocked false
      (attackPlayerLockTrace worldAB oneSubscriber "p1" "p1") = true ∧
    deadlocksOnOwnWriteLock false
      (attackPlayerLockTrace worldAB oneSubscriber "p1" "p1") = true := by
  decide

/-- Claim C4, counterexample: after ten attacks of damage 10 the target of
duelWorld is at health 0 (defeated); the eleventh attack against the
already-defeated target still executes and broadcasts the defeat event
again, which the claim says never happens. -/
theorem defeat_event_reemitted_after_defeat :
    (findPlayer (iterAttack duelWorld "att" "tgt" 10) "tgt").map Player.health = some 0 ∧
    (attackPlayer (iterAttack duelWorld "att" "tgt" 10) "att" "tgt").outcome
      = GoOutcome.ok ∧
    defeatEvents (attackPlayer (iterAttack duelWorld "att" "tgt" 10) "att" "tgt") = 1 := by
  decide

/-- Claim C4 (amended): in the fixed-damage-10 scenario from full health
100, the first nine attacks broadcast no defeat event, the tenth — the one
that brings health to exactly zero — broadcasts it once, and each further
attack against the already-defeated target still succeeds and broadcasts
one more defeat event. -/
theorem defeat_event_emission_profile :
    defeatCount duelWorld "att" "tgt" 9 = 0 ∧
    defeatCount duelWorld "att" "tgt" 10 = 1 ∧
    (findPlayer (iterAttack duelWorld "att" "tgt" 10) "tgt").map Player.health = some 0 ∧
    (attackPlayer (iterAttack duelWorld "att" "tgt" 11) "att" "tgt").outcome
      = GoOutcome.ok ∧
    defeatEvents (attackPlayer (iterAttack duelWorld "att" "tgt" 10) "att" "tgt") = 1 ∧
    defeatEvents (attackPlayer (iterAttack duelWorld "att" "tgt" 11) "att" "tgt") = 1 ∧
    (findPlayer (iterAttack duelWorld "att" "tgt" 12) "tgt").map Player.health = some 0 := by
  decide

/-- Claim C7, counterexample: a global event is not delivered to a
registered subscriber whose queue is full — it is dropped and the
subscriber evicted, so "delivers a global event to every registered
subscriber queue" fails as stated. -/
theorem global_event_dropped_for_full_queue :
    fullSubscriber.registered = true ∧ globalJoinEvent.global = true ∧
    ((broadcastEvent worldAB globalJoinEvent 5 [fullSubscriber]).getD 0 default).buf
      = fullSubscriber.buf ∧
    ({ globalJoinEvent with timestamp := 5 } ∉
      ((broadcastEvent worldAB globalJoinEvent 5 [fullSubscriber]).getD 0 default).buf) := by
  decide

/-- Claim C9: RemoveClient is not idempotent and not safe after a
full-queue eviction: the broadcast that evicts fullSubscriber closes its
channel, and the deferred RemoveClient of handleSSE then runs close on an
already-closed channel — a Go runtime panic (`none` here); likewise a
second RemoveClient after a first one panics. -/
theorem removeClient_after_eviction_panics :
    removeClient (broadcastEvent worldAB globalJoinEvent 5 [fullSubscriber]) 0 = none ∧
    (removeClient [fullSubscriber] 0).map (fun cs => removeClient cs 0)
      = some none := by
  decide

/-- Witness for claim C2 at a concrete world: moving Alice to an unknown
location fails and changes nothing. -/
theorem movePlayer_ok_iff_witness :
    WellFormed worldAB ∧ (movePlayer worldAB "p1" "locC").game = worldAB ∧
    (movePlayer worldAB "p1" "locC").events = [] := by
  have h := movePlayer_ok_iff worldAB (by unfold WellFormed; decide) "p1" "locC"
  exact ⟨by unfold WellFormed; decide, (h.2 (by decide)).1, (h.2 (by decide)).2⟩

/-- Witness for claim C3 at a concrete world. -/
theorem health_in_range_witness :
    HealthInv worldAB ∧ HealthInv (attackPlayer worldAB "p1" "p1").game := by
  have h := health_in_range worldAB "p1" "p1" "p1" "locB"
    { id := "p9", name := "Bob", currentLocation := "locA", health := 100 }
    (by unfold HealthInv; decide) (by decide)
  exact ⟨by unfold HealthInv; decide, h.1⟩

/-- Witness for claim C5 at a concrete world: Alice's successful move
broadcasts exactly the departure (scoped to locA) then the arrival
(scoped to locB). -/
theorem movePlayer_two_events_witness :
    (movePlayer worldAB "p1" "locB").events =
      [{ type := EventType.playerMoved, playerID := "p1", location := "locA",
         message := "Alice left the area" },
       { type := EventType.playerMoved, playerID := "p1", location := "locB",
         message := "Alice arrived" }] := by
  exact (movePlayer_two_events worldAB "p1" "locB").1
    { id := "p1", name := "Alice", currentLocation := "locA", health := 100 }
    (by decide) (by decide)

/-- Witness for the amended claim C7 at a concrete world: the global event
reaches the registered subscriber with room. -/
theorem broadcast_filtering_witness :
    ((broadcastEvent worldAB globalJoinEvent 7 oneSubscriber).getD 0 default).buf =
      [] ++ [{ globalJoinEvent with timestamp := 7 }] := by
  exact (broadcast_filtering worldAB globalJoinEvent 7 oneSubscriber 0 (by decide)).1
    (by decide) (by decide) (by decide)

/-- Witness for claim C8 at a concrete world: the full subscriber is
evicted with its buffer unchanged. -/
theorem broadcast_backpressure_witness :
    ((broadcastEvent worldAB globalJoinEvent 7 [fullSubscriber]).getD 0 default).buf
        = fullSubscriber.buf ∧
    ((broadcastEvent worldAB globalJoinEvent 7 [fullSubscriber]).getD 0 default).closed
        = true ∧
    ((broadcastEvent worldAB globalJoinEvent 7 [fullSubscriber]).getD 0 default).registered
        = false := by
  exact (broadcast_backpressure worldAB globalJoinEvent 7 [fullSubscriber] 0 (by decide)).1
    (by decide) (by decide) (by decide)

/-- Witness for claim C10 at a concrete world: Alice's self-attack
succeeds. -/
theorem attackPlayer_self_witness :
    (attackPlayer worldAB "p1" "p1").outcome = GoOutcome.ok := by
  exact (attackPlayer_self worldAB "p1"
    { id := "p1", name := "Alice", currentLocation := "locA", health := 100 } (by decide)).1

/-- getD after set, all cases at once. -/
theorem getD_set_cases {α : Type} (l : List α) (i j : Nat) (a d : α) :
    (l.set i a).getD j d = if i = j ∧ j < l.length then a else l.getD j d := by
  by_cases hj : j < l.length
  · by_cases hij : i = j
    · subst hij
      rw [if_pos ⟨rfl, hj⟩, List.getD_eq_getElem _ _ (by simpa using hj)]
      exact List.getElem_set_self (by simpa using hj)
    · rw [if_neg (by tauto), List.getD_eq_getElem _ _ (by simpa using hj),
          List.getD_eq_getElem _ _ hj]
      exact List.getElem_set_ne hij _
  · rw [if_neg (by tauto), List.getD_eq_default _ _ (by simpa using Nat.le_of_not_lt hj),
        List.getD_eq_default _ _ (Nat.le_of_not_lt hj)]

/-- getD after set at the written position. -/
theorem getD_set_self2 {α : Type} (l : List α) (i : Nat) (a d : α) (h : i < l.length) :
    (l.set i a).getD i d = a := by
  rw [List.getD_eq_getElem _ _ (by simpa using h)]
  exact List.getElem_set_self (by simpa using h)

/-- getD after set at any other position. -/
theorem getD_set_ne2 {α : Type} (l : List α) (i j : Nat) (a d : α) (h : i ≠ j) :
    (l.set i a).getD j d = l.getD j d := by
  rw [getD_set_cases, if_neg (fun hc => h hc.1)]

/-- Distinct in-range positions of a duplicate-free list hold distinct
values. -/
theorem nodup_getD_ne (ids : List String) (h : ids.Nodup) (i j : Nat) (hi : i < ids.length)
    (hj : j < ids.length) (hij : i ≠ j) : ids.getD i "" ≠ ids.getD j "" := by
  rw [List.getD_eq_getElem _ _ hi, List.getD_eq_getElem _ _ hj]
  intro he
  exact hij (h.getElem_inj_iff.mp he)

/-- The creation loop makes one location per identifier. -/
theorem length_mkLocations (ids : List String) : (mkLocations ids).length = ids.length := by
  simp [mkLocations]

/-- The creation loop stores the i-th identifier at slice index i. -/
theorem idAt_mkLocations (ids : List String) (i : Nat) (h : i < ids.length) :
    idAt (mkLocations ids) i = ids.getD i "" := by
  unfold idAt mkLocations
  rw [List.getD_eq_getElem _ _ (by simpa using h)]
  simp

/-- The creation loop starts every location with no connections. -/
theorem conns_mkLocations (ids : List String) (i : Nat) :
    conns (mkLocations ids) i = [] := by
  unfold conns mkLocations
  by_cases h : i < ids.length
  · rw [List.getD_eq_getElem _ _ (by simpa using h)]
    simp
  · rw [List.getD_eq_default _ _ (by simpa using Nat.le_of_not_lt h)]
    rfl

/-- The freshly created slice satisfies the connection-phase invariant. -/
theorem graphInv_mkLocations (ids : List String) : GraphInv ids (mkLocations ids) := by
  refine ⟨length_mkLocations ids, ?_, ?_, ?_⟩
  · intro i hi
    exact idAt_mkLocations ids i (by simpa [length_mkLocations] using hi)
  · intro i
    rw [conns_mkLocations]
    exact List.not_mem_nil _
  · intro i j _ _
    rw [conns_mkLocations, conns_mkLocations]
    simp

/-- The guarded append of GenerateGraph keeps the location's identifier. -/
theorem conn_if_id (a : Location) (y : String) :
    (if a.connections.contains y then a
     else { a with connections := a.connections ++ [y] }).id = a.id := by
  by_cases h : a.connections.contains y = true
  · rw [if_pos h]
  · rw [if_neg h]

/-- Membership after the guarded append: exactly the old connections plus
the new endpoint, dedup or not. -/
theorem conn_if_mem (a : Location) (y x : String) :
    (x ∈ (if a.connections.contains y then a
          else { a with connections := a.connections ++ [y] }).connections) ↔
      x ∈ a.connections ∨ x = y := by
  by_cases h : a.connections.contains y = true
  · rw [if_pos h]
    exact ⟨Or.inl, fun hx => hx.elim id (fun he => he ▸ List.elem_iff.mp h)⟩
  · rw [if_neg h]
    simp

/-- The guarded append only appends. -/
theorem conn_if_extend (a : Location) (y : String) :
    ∃ s, (if a.connections.contains y then a
          else { a with connections := a.connections ++ [y] }).connections =
      a.connections ++ s := by
  by_cases h : a.connections.contains y = true
  · rw [if_pos h]
    exact ⟨[], by simp⟩
  · rw [if_neg h]
    exact ⟨[y], rfl⟩

/-- What one bidirectional dedup'd edge insertion does to the slice:
length and identifiers kept, the two endpoint connection lists gain
exactly each other's identifier, everything else untouched. -/
theorem connectPair_parts (locs : List Location) (i t : Nat) (hi : i < locs.length)
    (ht : t < locs.length) (hit : i ≠ t) :
    (connectPair locs i t).length = locs.length ∧
    (∀ j, idAt (connectPair locs i t) j = idAt locs j) ∧
    (∀ x, (x ∈ conns (connectPair locs i t) i ↔ x ∈ conns locs i ∨ x = idAt locs t)) ∧
    (∀ x, (x ∈ conns (connectPair locs i t) t ↔ x ∈ conns locs t ∨ x = idAt locs i)) ∧
    (∀ j, j ≠ i → j ≠ t → conns (connectPair locs i t) j = conns locs j) := by
  refine ⟨by simp [connectPair], ?_, ?_, ?_, ?_⟩
  · intro j
    simp only [idAt, connectPair]
    by_cases hjt : j = t
    · subst hjt
      rw [getD_set_self2 _ _ _ _ (by simpa using ht)]
      exact conn_if_id _ _
    · rw [getD_set_ne2 _ _ _ _ _ (fun he => hjt he.symm)]
      by_cases hji : j = i
      · subst hji
        rw [getD_set_self2 _ _ _ _ hi]
        exact conn_if_id _ _
      · rw [getD_set_ne2 _ _ _ _ _ (fun he => hji he.symm)]
  · intro x
    simp only [conns, connectPair]
    rw [getD_set_ne2 _ _ _ _ _ (fun he => hit he.symm), getD_set_self2 _ _ _ _ hi]
    exact conn_if_mem _ _ _
  · intro x
    simp only [conns, connectPair]
    rw [getD_set_self2 _ _ _ _ (by simpa using ht)]
    exact conn_if_mem _ _ _
  · intro j hji hjt
    simp only [conns, connectPair]
    rw [getD_set_ne2 _ _ _ _ _ (fun he => hjt he.symm),
        getD_set_ne2 _ _ _ _ _ (fun he => hji he.symm)]

/-- What the unguarded ring-fallback insertion does to the slice: same
shape as connectPair_parts. -/
theorem connectFallback_parts (locs : List Location) (i t : Nat) (hi : i < locs.length)
    (ht : t < locs.length) (hit : i ≠ t) :
    (connectFallback locs i t).length = locs.length ∧
    (∀ j, idAt (connectFallback locs i t) j = idAt locs j) ∧
    (∀ x, (x ∈ conns (connectFallback locs i t) i ↔ x ∈ conns locs i ∨ x = idAt locs t)) ∧
    (∀ x, (x ∈ conns (connectFallback locs i t) t ↔ x ∈ conns locs t ∨ x = idAt locs i)) ∧
    (∀ j, j ≠ i → j ≠ t → conns (connectFallback locs i t) j = conns locs j) := by
  refine ⟨by simp [connectFallback], ?_, ?_, ?_, ?_⟩
  · intro j
    simp only [idAt, connectFallback]
    by_cases hjt : j = t
    · subst hjt
      rw [getD_set_self2 _ _ _ _ (by simpa using ht)]
    · rw [getD_set_ne2 _ _ _ _ _ (fun he => hjt he.symm)]
      by_cases hji : j = i
      · subst hji
        rw [getD_set_self2 _ _ _ _ hi]
      · rw [getD_set_ne2 _ _ _ _ _ (fun he => hji he.symm)]
  · intro x
    simp only [conns, connectFallback]
    rw [getD_set_ne2 _ _ _ _ _ (fun he => hit he.symm), getD_set_self2 _ _ _ _ hi]
    simp [idAt]
  · intro x
    simp only [conns, connectFallback]
    rw [getD_set_self2 _ _ _ _ (by simpa using ht)]
    simp [idAt]
  · intro j hji hjt
    simp only [conns, connectFallback]
    rw [getD_set_ne2 _ _ _ _ _ (fun he => hjt he.symm),
        getD_set_ne2 _ _ _ _ _ (fun he => hji he.symm)]

/-- ConnsExtend is reflexive. -/
theorem connsExtend_refl (locs : List Location) : ConnsExtend locs locs :=
  ⟨rfl, fun _ => rfl, fun j => ⟨[], by simp⟩⟩

/-- ConnsExtend is transitive. -/
theorem connsExtend_trans (l1 l2 l3 : List Location) (h12 : ConnsExtend l1 l2)
    (h23 : ConnsExtend l2 l3) : ConnsExtend l1 l3 := by
  obtain ⟨hL12, hI12, hC12⟩ := h12
  obtain ⟨hL23, hI23, hC23⟩ := h23
  refine ⟨by rw [hL23, hL12], fun j => (hI23 j).trans (hI12 j), fun j => ?_⟩
  obtain ⟨s1, hs1⟩ := hC12 j
  obtain ⟨s2, hs2⟩ := hC23 j
  exact ⟨s1 ++ s2, by rw [hs2, hs1, List.append_assoc]⟩

/-- A bidirectional edge insertion only grows connection lists. -/
theorem connsExtend_connectPair (locs : List Location) (i t : Nat) :
    ConnsExtend locs (connectPair locs i t) := by
  refine ⟨by simp [connectPair], ?_, ?_⟩
  · intro j
    simp only [idAt, connectPair]
    rw [getD_set_cases]
    simp only [List.length_set]
    by_cases hjt : t = j ∧ j < locs.length
    · rw [if_pos hjt]
      obtain ⟨rfl, _⟩ := hjt
      exact conn_if_id _ _
    · rw [if_neg hjt, getD_set_cases]
      by_cases hji : i = j ∧ j < locs.length
      · rw [if_pos hji]
        obtain ⟨rfl, _⟩ := hji
        exact conn_if_id _ _
      · rw [if_neg hji]
  · intro j
    simp only [conns, connectPair]
    rw [getD_set_cases]
    simp only [List.length_set]
    by_cases hjt : t = j ∧ j < locs.length
    · rw [if_pos hjt]
      obtain ⟨rfl, _⟩ := hjt
      exact conn_if_extend _ _
    · rw [if_neg hjt, getD_set_cases]
      by_cases hji : i = j ∧ j < locs.length
      · rw [if_pos hji]
        obtain ⟨rfl, _⟩ := hji
        exact conn_if_extend _ _
      · rw [if_neg hji]
        exact ⟨[], by simp⟩

/-- The ring fallback only grows connection lists. -/
theorem connsExtend_connectFallback (locs : List Location) (i t : Nat) :
    ConnsExtend locs (connectFallback locs i t) := by
  refine ⟨by simp [connectFallback], ?_, ?_⟩
  · intro j
    simp only [idAt, connectFallback]
    rw [getD_set_cases]
    simp only [List.length_set]
    by_cases hjt : t = j ∧ j < locs.length
    · rw [if_pos hjt]
      obtain ⟨rfl, _⟩ := hjt
      rfl
    · rw [if_neg hjt, getD_set_cases]
      by_cases hji : i = j ∧ j < locs.length
      · rw [if_pos hji]
        obtain ⟨rfl, _⟩ := hji
        rfl
      · rw [if_neg hji]
  · intro j
    simp only [conns, connectFallback]
    rw [getD_set_cases]
    simp only [List.length_set]
    by_cases hjt : t = j ∧ j < locs.length
    · rw [if_pos hjt]
      obtain ⟨rfl, _⟩ := hjt
      exact ⟨[idAt locs i], rfl⟩
    · rw [if_neg hjt, getD_set_cases]
      by_cases hji : i = j ∧ j < locs.length
      · rw [if_pos hji]
        obtain ⟨rfl, _⟩ := hji
        exact ⟨[idAt locs t], rfl⟩
      · rw [if_neg hji]
        exact ⟨[], by simp⟩

/-- Inserting one bidirectional edge i–t (in either the dedup'd or the
unguarded way) preserves the connection-phase invariant. -/
theorem graphInv_biconnect (ids : List String) (hnd : ids.Nodup)
    (locs locs' : List Location) (i t : Nat) (hinv : GraphInv ids locs)
    (hi : i < locs.length) (ht : t < locs.length) (hit : i ≠ t)
    (hlen : locs'.length = locs.length)
    (hid : ∀ j, idAt locs' j = idAt locs j)
    (hci : ∀ x, (x ∈ conns locs' i ↔ x ∈ conns locs i ∨ x = idAt locs t))
    (hct : ∀ x, (x ∈ conns locs' t ↔ x ∈ conns locs t ∨ x = idAt locs i))
    (hco : ∀ j, j ≠ i → j ≠ t → conns locs' j = conns locs j) :
    GraphInv ids locs' := by
  obtain ⟨hL, hIds, hNS, hSym⟩ := hinv
  have hidne : ∀ a b : Nat, a < locs.length → b < locs.length → a ≠ b →
      idAt locs a ≠ idAt locs b := by
    intro a b ha hb hab
    rw [hIds a ha, hIds b hb]
    exact nodup_getD_ne ids hnd a b (hL ▸ ha) (hL ▸ hb) hab
  refine ⟨by rw [hlen, hL], ?_, ?_, ?_⟩
  · intro j hj
    rw [hid j]
    exact hIds j (hlen ▸ hj)
  · intro j
    rw [hid j]
    by_cases hji : j = i
    · rw [hji]
      intro hmem
      rcases (hci _).mp hmem with hin | heq
      · exact hNS i hin
      · exact hidne i t hi ht hit heq
    · by_cases hjt : j = t
      · rw [hjt]
        intro hmem
        rcases (hct _).mp hmem with hin | heq
        · exact hNS t hin
        · exact hidne t i ht hi (fun he => hit he.symm) heq
      · rw [hco j hji hjt]
        exact hNS j
  · intro j k hj hk
    have hj' : j < locs.length := hlen ▸ hj
    have hk' : k < locs.length := hlen ▸ hk
    rw [hid j, hid k]
    by_cases hji : j = i
    · by_cases hkt : k = t
      · rw [hji, hkt]
        constructor
        · intro _
          exact (hct _).mpr (Or.inr rfl)
        · intro _
          exact (hci _).mpr (Or.inr rfl)
      · by_cases hki : k = i
        · rw [hji, hki]
        · rw [hji, hco k hki hkt]
          constructor
          · intro hmem
            rcases (hci _).mp hmem with hin | heq
            · exact (hSym i k hi hk').mp hin
            · exact (hidne k t hk' ht hkt heq).elim
          · intro hmem
            exact (hci _).mpr (Or.inl ((hSym i k hi hk').mpr hmem))
    · by_cases hjt : j = t
      · by_cases hki : k = i
        · rw [hjt, hki]
          constructor
          · intro _
            exact (hci _).mpr (Or.inr rfl)
          · intro _
            exact (hct _).mpr (Or.inr rfl)
        · by_cases hkt : k = t
          · rw [hjt, hkt]
          · rw [hjt, hco k hki hkt]
            constructor
            · intro hmem
              rcases (hct _).mp hmem with hin | heq
              · exact (hSym t k ht hk').mp hin
              · exact (hidne k i hk' hi hki heq).elim
            · intro hmem
              exact (hct _).mpr (Or.inl ((hSym t k ht hk').mpr hmem))
      · rw [hco j hji hjt]
        by_cases hki : k = i
        · rw [hki]
          constructor
          · intro hmem
            exact (hci _).mpr (Or.inl ((hSym j i hj' hi).mp hmem))
          · intro hmem
            rcases (hci _).mp hmem with hin | heq
            · exact (hSym j i hj' hi).mpr hin
            · exact (hidne j t hj' ht hjt heq).elim
        · by_cases hkt : k = t
          · rw [hkt]
            constructor
            · intro hmem
              exact (hct _).mpr (Or.inl ((hSym j t hj' ht).mp hmem))
            · intro hmem
              rcases (hct _).mp hmem with hin | heq
              · exact (hSym j t hj' ht).mpr hin
              · exact (hidne j i hj' hi hji heq).elim
          · rw [hco k hki hkt]
            exact hSym j k hj' hk'

/-- connectPair preserves the invariant. -/
theorem graphInv_connectPair (ids : List String) (hnd : ids.Nodup) (locs : List Location)
    (i t : Nat) (hinv : GraphInv ids locs) (hi : i < locs.length) (ht : t < locs.length)
    (hit : i ≠ t) : GraphInv ids (connectPair locs i t) := by
  obtain ⟨h1, h2, h3, h4, h5⟩ := connectPair_parts locs i t hi ht hit
  exact graphInv_biconnect ids hnd locs _ i t hinv hi ht hit h1 h2 h3 h4 h5

/-- connectFallback preserves the invariant. -/
theorem graphInv_connectFallback (ids : List String) (hnd : ids.Nodup)
    (locs : List Location) (i t : Nat) (hinv : GraphInv ids locs) (hi : i < locs.length)
    (ht : t < locs.length) (hit : i ≠ t) : GraphInv ids (connectFallback locs i t) := by
  obtain ⟨h1, h2, h3, h4, h5⟩ := connectFallback_parts locs i t hi ht hit
  exact graphInv_biconnect ids hnd locs _ i t hinv hi ht hit h1 h2 h3 h4 h5

/-- The ring-fallback successor differs from its argument when the world
has more than one location. -/
theorem succ_mod_ne (i n : Nat) (hi : i < n) (hn : 1 < n) : (i + 1) % n ≠ i := by
  rcases Nat.lt_or_ge (i + 1) n with h | h
  · rw [Nat.mod_eq_of_lt h]
    omega
  · have he : i + 1 = n := by omega
    rw [he, Nat.mod_self]
    omega

/-- The inner random-edges loop preserves the invariant and the length. -/
theorem graphInv_innerConnect (ids : List String) (hnd : ids.Nodup) (i : Nat) :
    ∀ (j : Nat) (locs : List Location) (r : Rng), GraphInv ids locs → i < locs.length →
      GraphInv ids (innerConnect i j locs r).1 ∧
      (innerConnect i j locs r).1.length = locs.length := by
  intro j
  induction j with
  | zero =>
    intro locs r h _
    exact ⟨h, rfl⟩
  | succ j ih =>
    intro locs r h hi
    simp only [innerConnect]
    by_cases hti : (r.intn locs.length).1 = i
    · rw [if_pos hti]
      exact ih _ _ h hi
    · rw [if_neg hti]
      have hlt : (r.intn locs.length).1 < locs.length := by
        show r.seq r.idx % locs.length < locs.length
        exact Nat.mod_lt _ (by omega)
      have hpl : (connectPair locs i (r.intn locs.length).1).length = locs.length := by
        simp [connectPair]
      have hinv2 := graphInv_connectPair ids hnd locs i _ h hi hlt
        (fun he => hti he.symm)
      have hrec := ih (connectPair locs i (r.intn locs.length).1)
        (r.intn locs.length).2 hinv2 (by rw [hpl]; exact hi)
      exact ⟨hrec.1, by rw [hrec.2, hpl]⟩

/-- The per-location step of the outer loop preserves the invariant and
the length, and — when the world has more than one location — leaves
location i with at least one connection. -/
theorem graphInv_connectLoc (ids : List String) (hnd : ids.Nodup) (locs : List Location)
    (r : Rng) (i : Nat) (h : GraphInv ids locs) (hi : i < locs.length) :
    GraphInv ids (connectLoc locs r i).1 ∧
    (connectLoc locs r i).1.length = locs.length ∧
    (1 < locs.length → conns (connectLoc locs r i).1 i ≠ []) := by
  obtain ⟨hInv1, hLen1⟩ :=
    graphInv_innerConnect ids hnd i ((r.intn 3).1 + 1) locs (r.intn 3).2 h hi
  simp only [connectLoc]
  by_cases hfb : (((innerConnect i ((r.intn 3).1 + 1) locs (r.intn 3).2).1.getD i
      default).connections.isEmpty
        && decide (1 < (innerConnect i ((r.intn 3).1 + 1) locs (r.intn 3).2).1.length))
      = true
  · rw [if_pos hfb]
    have h1lt : 1 < (innerConnect i ((r.intn 3).1 + 1) locs (r.intn 3).2).1.length := by
      have := (Bool.and_eq_true ..).mp hfb
      simpa using this.2
    have hi' : i < (innerConnect i ((r.intn 3).1 + 1) locs (r.intn 3).2).1.length := by
      rw [hLen1]
      exact hi
    have htlt : (i + 1) % (innerConnect i ((r.intn 3).1 + 1) locs (r.intn 3).2).1.length <
        (innerConnect i ((r.intn 3).1 + 1) locs (r.intn 3).2).1.length :=
      Nat.mod_lt _ (by omega)
    have htne := succ_mod_ne i _ hi' h1lt
    obtain ⟨hp1, hp2, hp3, hp4, hp5⟩ :=
      connectFallback_parts (innerConnect i ((r.intn 3).1 + 1) locs (r.intn 3).2).1 i
        ((i + 1) % (innerConnect i ((r.intn 3).1 + 1) locs (r.intn 3).2).1.length)
        hi' htlt (fun he => htne he.symm)
    refine ⟨graphInv_biconnect ids hnd _ _ i _ hInv1 hi' htlt (fun he => htne he.symm)
        hp1 hp2 hp3 hp4 hp5, by rw [hp1, hLen1], ?_⟩
    intro _ hempty
    have hmem := (hp3 _).mpr (Or.inr rfl)
    rw [hempty] at hmem
    exact List.not_mem_nil _ hmem
  · rw [if_neg hfb]
    refine ⟨hInv1, hLen1, ?_⟩
    intro h1lt hempty
    apply hfb
    rw [Bool.and_eq_true]
    constructor
    · have he : ((innerConnect i ((r.intn 3).1 + 1) locs (r.intn 3).2).1.getD i
          default).connections = [] := hempty
      rw [he]
      rfl
    · rw [hLen1]
      exact decide_eq_true h1lt

/-- The inner loop only grows connection lists. -/
theorem connsExtend_innerConnect (i : Nat) :
    ∀ (j : Nat) (locs : List Location) (r : Rng),
      ConnsExtend locs (innerConnect i j locs r).1 := by
  intro j
  induction j with
  | zero =>
    intro locs r
    exact connsExtend_refl locs
  | succ j ih =>
    intro locs r
    simp only [innerConnect]
    by_cases hti : (r.intn locs.length).1 = i
    · rw [if_pos hti]
      exact ih _ _
    · rw [if_neg hti]
      exact connsExtend_trans _ _ _ (connsExtend_connectPair _ _ _) (ih _ _)

/-- The per-location step only grows connection lists. -/
theorem connsExtend_connectLoc (locs : List Location) (r : Rng) (i : Nat) :
    ConnsExtend locs (connectLoc locs r i).1 := by
  simp only [connectLoc]
  by_cases hfb : (((innerConnect i ((r.intn 3).1 + 1) locs (r.intn 3).2).1.getD i
      default).connections.isEmpty
        && decide (1 < (innerConnect i ((r.intn 3).1 + 1) locs (r.intn 3).2).1.length))
      = true
  · rw [if_pos hfb]
    exact connsExtend_trans _ _ _ (connsExtend_innerConnect i _ locs (r.intn 3).2)
      (connsExtend_connectFallback _ _ _)
  · rw [if_neg hfb]
    exact connsExtend_innerConnect i _ locs (r.intn 3).2

/-- Growing connection lists preserves nonemptiness. -/
theorem connsExtend_nonempty (locs locs' : List Location) (h : ConnsExtend locs locs')
    (j : Nat) (hne : conns locs j ≠ []) : conns locs' j ≠ [] := by
  obtain ⟨-, -, hC⟩ := h
  obtain ⟨s, hs⟩ := hC j
  rw [hs]
  exact List.append_ne_nil_of_left_ne_nil hne s

/-- The outer loop preserves the invariant and the length. -/
theorem graphInv_connectAll (ids : List String) (hnd : ids.Nodup) :
    ∀ (idxs : List Nat) (locs : List Location) (r : Rng), GraphInv ids locs →
      (∀ i ∈ idxs, i < locs.length) →
      GraphInv ids (connectAll locs r idxs).1 ∧
      (connectAll locs r idxs).1.length = locs.length := by
  intro idxs
  induction idxs with
  | nil =>
    intro locs r h _
    exact ⟨h, rfl⟩
  | cons i rest ih =>
    intro locs r h hbound
    have hstep := graphInv_connectLoc ids hnd locs r i h (hbound i (List.mem_cons_self ..))
    have hca : connectAll locs r (i :: rest) =
        connectAll (connectLoc locs r i).1 (connectLoc locs r i).2 rest := rfl
    rw [hca]
    have hrec := ih (connectLoc locs r i).1 (connectLoc locs r i).2 hstep.1
      (fun k hk => by rw [hstep.2.1]; exact hbound k (List.mem_cons_of_mem _ hk))
    exact ⟨hrec.1, by rw [hrec.2, hstep.2.1]⟩

/-- After the outer loop, every index it visited — and every index whose
connections were already nonempty — has at least one connection (world
size ≥ 2). -/
theorem connectAll_nonempty (ids : List String) (hnd : ids.Nodup) :
    ∀ (idxs : List Nat) (locs : List Location) (r : Rng), GraphInv ids locs →
      1 < locs.length → (∀ i ∈ idxs, i < locs.length) →
      ∀ j, (j ∈ idxs ∨ conns locs j ≠ []) → conns (connectAll locs r idxs).1 j ≠ [] := by
  intro idxs
  induction idxs with
  | nil =>
    intro locs r _ _ _ j hj
    rcases hj with h | h
    · exact absurd h (List.not_mem_nil _)
    · exact h
  | cons i rest ih =>
    intro locs r h h1 hbound j hj
    have hii : i < locs.length := hbound i (List.mem_cons_self ..)
    have hstep := graphInv_connectLoc ids hnd locs r i h hii
    have hca : connectAll locs r (i :: rest) =
        connectAll (connectLoc locs r i).1 (connectLoc locs r i).2 rest := rfl
    rw [hca]
    apply ih (connectLoc locs r i).1 (connectLoc locs r i).2 hstep.1
      (by rw [hstep.2.1]; exact h1)
      (fun k hk => by rw [hstep.2.1]; exact hbound k (List.mem_cons_of_mem _ hk))
    rcases hj with hmem | hne
    · rcases List.mem_cons.mp hmem with rfl | hmem'
      · exact Or.inr (hstep.2.2 h1)
      · exact Or.inl hmem'
    · exact Or.inr (connsExtend_nonempty _ _ (connsExtend_connectLoc locs r i) j hne)

/-- Claim C6: for every identifier list of size ≥ 2 (unique identifiers,
as the identifier generator guarantees) and every randomness stream, the
generated graph gives every location at least one connection, contains no
self-loop, and its connection relation is symmetric. -/
theorem generateGraph_spec (ids : List String) (r : Rng) (h2 : 2 ≤ ids.length)
    (hnd : ids.Nodup) :
    (∀ l ∈ generateGraph ids r, l.connections ≠ []) ∧
    (∀ l ∈ generateGraph ids r, l.id ∉ l.connections) ∧
    (∀ a ∈ generateGraph ids r, ∀ b ∈ generateGraph ids r,
      (b.id ∈ a.connections ↔ a.id ∈ b.connections)) := by
  have hbase := graphInv_mkLocations ids
  have hlen0 : (mkLocations ids).length = ids.length := length_mkLocations ids
  have hbound : ∀ i ∈ List.range ids.length, i < (mkLocations ids).length := by
    intro i hi
    rw [hlen0]
    exact List.mem_range.mp hi
  obtain ⟨hinv, hlen⟩ :=
    graphInv_connectAll ids hnd (List.range ids.length) (mkLocations ids) r hbase hbound
  obtain ⟨hL, hIds, hNS, hSym⟩ := hinv
  have hlen' : (generateGraph ids r).length = ids.length := hL
  have hidx : ∀ l ∈ generateGraph ids r, ∃ i, i < (generateGraph ids r).length ∧
      (generateGraph ids r).getD i default = l := by
    intro l hl
    obtain ⟨i, hi, he⟩ := List.mem_iff_getElem.mp hl
    exact ⟨i, hi, by rw [List.getD_eq_getElem _ _ hi]; exact he⟩
  refine ⟨?_, ?_, ?_⟩
  · intro l hl
    obtain ⟨i, hi, he⟩ := hidx l hl
    have hi2 : i < ids.length := hlen' ▸ hi
    have hne := connectAll_nonempty ids hnd (List.range ids.length) (mkLocations ids) r
      hbase (by rw [hlen0]; omega) hbound i (Or.inl (List.mem_range.mpr hi2))
    rw [← he]
    exact hne
  · intro l hl
    obtain ⟨i, _, he⟩ := hidx l hl
    rw [← he]
    exact hNS i
  · intro a ha b hb
    obtain ⟨i, hi, hea⟩ := hidx a ha
    obtain ⟨j, hj, heb⟩ := hidx b hb
    rw [← hea, ← heb]
    exact hSym i j hi hj

/-- Witness for claim C6 at a concrete input: a two-location world from a
constant randomness stream; its first location has a connection. -/
theorem generateGraph_spec_witness :
    2 ≤ (["aa", "bb"] : List String).length ∧ (["aa", "bb"] : List String).Nodup ∧
    ((generateGraph ["aa", "bb"] ⟨fun _ => 0, 0⟩).getD 0 default).connections ≠ [] := by
  refine ⟨by decide, by decide, ?_⟩
  exact (generateGraph_spec ["aa", "bb"] ⟨fun _ => 0, 0⟩ (by decide) (by decide)).1
    _ (by decide)
